import Mathlib

/-!
Verification of the reminder subsystem of the onmymind bot.

The Go package `reminder` (parser.go, scheduler.go, sqlite.go, types.go) is
shallowly embedded below.

Calendar and wall-clock time are modelled at minute granularity by `DateTime`,
a validated civil date (year, month in 1..12, day in 1..daysInMonth) together
with hour and minute.  The operations of Go `time.Time` that the scheduler
uses — `AddDate(0,0,1)`, `AddDate(0,1,0)`, `time.Date` with out-of-range day
and month arguments (day 0 borrows from the preceding month, month 13 rolls
the year), `Before`, `Weekday`, `Hour`, `Minute` — are reproduced on this
representation.  A single fixed location is assumed (no daylight saving
shifts), and seconds/nanoseconds are dropped: the scheduler constructs times
with zero seconds and the properties at issue are at minute precision.
-/

/-- Gregorian leap year test, as in Go `time.isLeap`.  Go uses truncated
`%`; for the nonnegative years that occur here it agrees with `emod`. -/
def isLeap (y : Int) : Bool :=
  y % 4 == 0 && (y % 100 != 0 || y % 400 == 0)

/-- Number of days of month `m` (1..12) of year `y`; the wildcard branch
covers the 31-day months and is never reached with an invalid month. -/
def daysInMonth (y : Int) (m : Nat) : Nat :=
  match m with
  | 2 => if isLeap y then 29 else 28
  | 4 => 30
  | 6 => 30
  | 9 => 30
  | 11 => 30
  | _ => 31

theorem daysInMonth_ge (y : Int) (m : Nat) : 28 ≤ daysInMonth y m := by
  unfold daysInMonth
  split <;> first
    | omega
    | (split <;> omega)

theorem daysInMonth_le (y : Int) (m : Nat) : daysInMonth y m ≤ 31 := by
  unfold daysInMonth
  split <;> first
    | omega
    | (split <;> omega)

theorem one_le_daysInMonth (y : Int) (m : Nat) : 1 ≤ daysInMonth y m := by
  have := daysInMonth_ge y m; omega

/-- Number of leap years in the interval [0, y) (year 0 itself is leap). -/
def leapsBefore (y : Int) : Int :=
  (y - 1) / 4 - (y - 1) / 100 + (y - 1) / 400 + 1

/-- Days from 1 January of year `y` to the first of month `m` (1..12). -/
def daysBeforeMonth (y : Int) (m : Nat) : Nat :=
  match m with
  | 1 => 0
  | 2 => 31
  | 3 => 59 + (if isLeap y then 1 else 0)
  | 4 => 90 + (if isLeap y then 1 else 0)
  | 5 => 120 + (if isLeap y then 1 else 0)
  | 6 => 151 + (if isLeap y then 1 else 0)
  | 7 => 181 + (if isLeap y then 1 else 0)
  | 8 => 212 + (if isLeap y then 1 else 0)
  | 9 => 243 + (if isLeap y then 1 else 0)
  | 10 => 273 + (if isLeap y then 1 else 0)
  | 11 => 304 + (if isLeap y then 1 else 0)
  | 12 => 334 + (if isLeap y then 1 else 0)
  | _ => 0

/-- A civil date-time at minute precision, the model of the Go `time.Time`
values handled by the reminder scheduler. -/
structure DateTime where
  year : Int
  month : Nat
  day : Nat
  hour : Nat
  minute : Nat
  month_pos : 1 ≤ month
  month_le : month ≤ 12
  day_pos : 1 ≤ day
  day_le : day ≤ daysInMonth year month
  hour_lt : hour < 24
  minute_lt : minute < 60

theorem DateTime.ext_fields (a b : DateTime)
    (h1 : a.year = b.year) (h2 : a.month = b.month) (h3 : a.day = b.day)
    (h4 : a.hour = b.hour) (h5 : a.minute = b.minute) : a = b := by
  cases a
  cases b
  simp only at h1 h2 h3 h4 h5
  subst h1; subst h2; subst h3; subst h4; subst h5
  rfl

instance : DecidableEq DateTime := fun a b =>
  if h : a.year = b.year ∧ a.month = b.month ∧ a.day = b.day ∧
      a.hour = b.hour ∧ a.minute = b.minute then
    isTrue (DateTime.ext_fields a b h.1 h.2.1 h.2.2.1 h.2.2.2.1 h.2.2.2.2)
  else
    isFalse (fun he => h (by subst he; exact ⟨rfl, rfl, rfl, rfl, rfl⟩))

/-- The field tuple of a `DateTime`, used to state concrete evaluations. -/
def dtTuple (t : DateTime) : Int × Nat × Nat × Nat × Nat :=
  (t.year, t.month, t.day, t.hour, t.minute)

/-- Days since 1 January of year 0 (proleptic Gregorian). -/
def toDays (t : DateTime) : Int :=
  365 * t.year + leapsBefore t.year + (daysBeforeMonth t.year t.month : Int) +
    ((t.day : Int) - 1)

/-- Minutes since the `toDays` epoch; the linear order on instants. -/
def toMinutes (t : DateTime) : Int :=
  1440 * toDays t + 60 * (t.hour : Int) + (t.minute : Int)

/-- Go `t.Before(u)`: strict comparison of instants. -/
def before (t u : DateTime) : Prop := toMinutes t < toMinutes u

instance (t u : DateTime) : Decidable (before t u) := by
  unfold before; exact inferInstance

/-- Go `t.Weekday()`: 0 = Sunday .. 6 = Saturday.  Day 0 of the `toDays`
epoch (1 January of year 0) falls so that 1970-01-01 maps to Thursday (4). -/
def weekday (t : DateTime) : Nat := ((toDays t + 6) % 7).toNat

theorem weekday_lt_7 (t : DateTime) : weekday t < 7 := by
  unfold weekday
  omega

/-- Go `t.AddDate(0, 0, 1)` on a valid date: the next calendar day, keeping
the time of day. -/
def nextDay (t : DateTime) : DateTime :=
  if h : t.day < daysInMonth t.year t.month then
    { t with day := t.day + 1, day_pos := by omega, day_le := h }
  else if h2 : t.month < 12 then
    { year := t.year, month := t.month + 1, day := 1, hour := t.hour,
      minute := t.minute, month_pos := by omega, month_le := h2,
      day_pos := le_refl 1, day_le := one_le_daysInMonth _ _,
      hour_lt := t.hour_lt, minute_lt := t.minute_lt }
  else
    { year := t.year + 1, month := 1, day := 1, hour := t.hour,
      minute := t.minute, month_pos := le_refl 1, month_le := by omega,
      day_pos := le_refl 1, day_le := one_le_daysInMonth _ _,
      hour_lt := t.hour_lt, minute_lt := t.minute_lt }

theorem nextDay_hour (t : DateTime) : (nextDay t).hour = t.hour := by
  unfold nextDay; split <;> [rfl; (split <;> rfl)]

theorem nextDay_minute (t : DateTime) : (nextDay t).minute = t.minute := by
  unfold nextDay; split <;> [rfl; (split <;> rfl)]

theorem leapsBefore_succ (y : Int) :
    leapsBefore (y + 1) = leapsBefore y + (if isLeap y then 1 else 0) := by
  unfold leapsBefore isLeap
  simp only [Bool.and_eq_true, Bool.or_eq_true, beq_iff_eq, bne_iff_ne,
    decide_eq_true_eq]
  split <;> omega

theorem daysBeforeMonth_succ (y : Int) (m : Nat) (h1 : 1 ≤ m) (h2 : m ≤ 11) :
    (daysBeforeMonth y (m + 1) : Int) =
      (daysBeforeMonth y m : Int) + (daysInMonth y m : Int) := by
  interval_cases m <;>
    simp only [daysBeforeMonth, daysInMonth] <;>
    (try split) <;> push_cast

theorem daysBeforeMonth_last (y : Int) :
    (daysBeforeMonth y 12 : Int) + (daysInMonth y 12 : Int) =
      365 + (if isLeap y then 1 else 0) := by
  simp only [daysBeforeMonth, daysInMonth]
  split <;> push_cast

/-- Stepping one civil day advances `toDays` by exactly one. -/
theorem toDays_nextDay (t : DateTime) : toDays (nextDay t) = toDays t + 1 := by
  unfold nextDay
  split
  · simp only [toDays]
    push_cast
    ring
  · split
    · rename_i hlt hm
      have hday : t.day = daysInMonth t.year t.month := by
        have := t.day_le; omega
      have hstep := daysBeforeMonth_succ t.year t.month t.month_pos (by omega)
      simp only [toDays]
      rw [hstep, hday]
      push_cast
      ring
    · rename_i hlt hm
      have hday : t.day = daysInMonth t.year t.month := by
        have := t.day_le; omega
      have hm12 : t.month = 12 := by have := t.month_le; omega
      have hlast := daysBeforeMonth_last t.year
      have hleap := leapsBefore_succ t.year
      simp only [toDays]
      rw [hday, hm12]
      have h0 : daysBeforeMonth (t.year + 1) 1 = 0 := rfl
      rw [h0]
      by_cases hl : isLeap t.year = true <;>
        simp only [hl, if_true, if_false] at hlast hleap <;> omega

theorem toMinutes_nextDay (t : DateTime) :
    toMinutes (nextDay t) = toMinutes t + 1440 := by
  unfold toMinutes
  rw [toDays_nextDay, nextDay_hour, nextDay_minute]
  ring

theorem weekday_nextDay (t : DateTime) :
    weekday (nextDay t) = (weekday t + 1) % 7 := by
  unfold weekday
  rw [toDays_nextDay]
  omega

/-- Advance a (year, month) pair by one month, wrapping December. -/
def rollMonth (y : Int) (m : Nat) : Int × Nat :=
  if m = 12 then (y + 1, 1) else (y, m + 1)

theorem rollMonth_bounds (y : Int) (m : Nat) (h1 : 1 ≤ m) (h2 : m ≤ 12) :
    1 ≤ (rollMonth y m).2 ∧ (rollMonth y m).2 ≤ 12 := by
  unfold rollMonth; split <;> simp <;> omega

/-- Go `t.AddDate(0, 1, 0)` on a valid date: `time.Date(y, m+1, d, ...)`.
A day count exceeding the length of the target month is normalized into the
month after it (so Jan 31 plus one month is Mar 2 or Mar 3), exactly as the
absolute-time normalization inside Go `time.Date` does. -/
def addOneMonth (t : DateTime) : DateTime :=
  if hd : t.day ≤ daysInMonth (rollMonth t.year t.month).1 (rollMonth t.year t.month).2 then
    { year := (rollMonth t.year t.month).1, month := (rollMonth t.year t.month).2,
      day := t.day, hour := t.hour, minute := t.minute,
      month_pos := (rollMonth_bounds t.year t.month t.month_pos t.month_le).1,
      month_le := (rollMonth_bounds t.year t.month t.month_pos t.month_le).2,
      day_pos := t.day_pos, day_le := hd,
      hour_lt := t.hour_lt, minute_lt := t.minute_lt }
  else
    { year := (rollMonth (rollMonth t.year t.month).1 (rollMonth t.year t.month).2).1,
      month := (rollMonth (rollMonth t.year t.month).1 (rollMonth t.year t.month).2).2,
      day := t.day - daysInMonth (rollMonth t.year t.month).1 (rollMonth t.year t.month).2,
      hour := t.hour, minute := t.minute,
      month_pos := (rollMonth_bounds _ _
        (rollMonth_bounds t.year t.month t.month_pos t.month_le).1
        (rollMonth_bounds t.year t.month t.month_pos t.month_le).2).1,
      month_le := (rollMonth_bounds _ _
        (rollMonth_bounds t.year t.month t.month_pos t.month_le).1
        (rollMonth_bounds t.year t.month t.month_pos t.month_le).2).2,
      day_pos := by omega,
      day_le := by
        have ha := t.day_le
        have hb := daysInMonth_le t.year t.month
        have hc := daysInMonth_ge (rollMonth t.year t.month).1 (rollMonth t.year t.month).2
        have he := daysInMonth_ge
          (rollMonth (rollMonth t.year t.month).1 (rollMonth t.year t.month).2).1
          (rollMonth (rollMonth t.year t.month).1 (rollMonth t.year t.month).2).2
        omega,
      hour_lt := t.hour_lt, minute_lt := t.minute_lt }

theorem addOneMonth_hour (t : DateTime) : (addOneMonth t).hour = t.hour := by
  unfold addOneMonth; split <;> rfl

theorem addOneMonth_minute (t : DateTime) : (addOneMonth t).minute = t.minute := by
  unfold addOneMonth; split <;> rfl

/-- Adding one Go month advances `toDays` by the length of the start month. -/
theorem toDays_addOneMonth (t : DateTime) :
    toDays (addOneMonth t) = toDays t + (daysInMonth t.year t.month : Int) := by
  have hlast := daysBeforeMonth_last t.year
  have hleap := leapsBefore_succ t.year
  unfold addOneMonth
  split
  · rename_i hd
    by_cases hm : t.month = 12
    · have hroll : rollMonth t.year t.month = (t.year + 1, 1) := by
        simp [rollMonth, hm]
      simp only [toDays, hroll]
      rw [hm]
      have h1 : daysBeforeMonth (t.year + 1) 1 = 0 := rfl
      rw [h1]
      by_cases hl : isLeap t.year = true <;>
        simp only [hl, if_true, if_false] at hlast hleap <;> omega
    · have hstep := daysBeforeMonth_succ t.year t.month t.month_pos
        (by have := t.month_le; omega)
      have hroll : rollMonth t.year t.month = (t.year, t.month + 1) := by
        simp [rollMonth, hm]
      simp only [toDays, hroll]
      omega
  · rename_i hd
    by_cases hm : t.month = 12
    · exfalso
      have hroll : rollMonth t.year t.month = (t.year + 1, 1) := by
        simp [rollMonth, hm]
      rw [hroll] at hd
      have h31 : daysInMonth (t.year + 1) 1 = 31 := rfl
      have h31b : daysInMonth t.year 12 = 31 := rfl
      have := t.day_le
      rw [hm] at this
      simp only at hd
      omega
    · by_cases hm11 : t.month = 11
      · exfalso
        have hroll : rollMonth t.year t.month = (t.year, 12) := by
          simp [rollMonth, hm11, hm]
        rw [hroll] at hd
        have h30 : daysInMonth t.year 11 = 30 := rfl
        have h31 : daysInMonth t.year 12 = 31 := rfl
        have := t.day_le
        rw [hm11] at this
        simp only at hd
        omega
      · have hm10 : t.month ≤ 10 := by have := t.month_le; omega
        have hs1 := daysBeforeMonth_succ t.year t.month t.month_pos (by omega)
        have hs2 := daysBeforeMonth_succ t.year (t.month + 1) (by omega) (by omega)
        have he2 : t.month + 1 + 1 = t.month + 2 := by omega
        rw [he2] at hs2
        have hroll : rollMonth t.year t.month = (t.year, t.month + 1) := by
          simp [rollMonth, hm]
        have hroll2 : rollMonth t.year (t.month + 1) = (t.year, t.month + 2) := by
          have hne : ¬ (t.month + 1 = 12) := by omega
          simp [rollMonth, hne]
        have ha := t.day_le
        simp only [toDays, hroll, hroll2]
        rw [hroll] at hd
        simp only at hd
        omega

theorem toMinutes_addOneMonth (t : DateTime) :
    toMinutes (addOneMonth t) = toMinutes t + 1440 * (daysInMonth t.year t.month : Int) := by
  unfold toMinutes
  rw [toDays_addOneMonth, addOneMonth_hour, addOneMonth_minute]
  ring

/-- The year component of Go month normalization in `time.Date`. -/
def normYear (y mm : Int) : Int := y + (mm - 1) / 12

/-- The month component (1..12) of Go month normalization in `time.Date`. -/
def normMonth (mm : Int) : Nat := ((mm - 1) % 12).toNat + 1

theorem normMonth_pos (mm : Int) : 1 ≤ normMonth mm := by unfold normMonth; omega

theorem normMonth_le (mm : Int) : normMonth mm ≤ 12 := by unfold normMonth; omega

/-- Step a (year, month) pair back one month, wrapping January. -/
def prevMonth (y : Int) (m : Nat) : Int × Nat :=
  if m = 1 then (y - 1, 12) else (y, m - 1)

theorem prevMonth_bounds (y : Int) (m : Nat) (h1 : 1 ≤ m) (h2 : m ≤ 12) :
    1 ≤ (prevMonth y m).2 ∧ (prevMonth y m).2 ≤ 12 := by
  unfold prevMonth; split <;> simp <;> omega

/-- Go `time.Date(y, mm, dd, h, mi, 0, 0, loc)` for the argument shapes the
scheduler produces: `dd = 0` (the `monthly:last` branch, which lands on the
last day of the month preceding the normalized `(y, mm)`) or `1 ≤ dd ≤ 28`
(the `monthly:first` and clamped day-number branches).  A month outside
1..12 rolls the year, exactly as the `norm` call in Go `time.Date`. -/
def mkDate (y mm : Int) (dd : Nat) (h mi : Nat) (hdd : dd ≤ 28)
    (hh : h < 24) (hmi : mi < 60) : DateTime :=
  if hz : dd = 0 then
    { year := (prevMonth (normYear y mm) (normMonth mm)).1,
      month := (prevMonth (normYear y mm) (normMonth mm)).2,
      day := daysInMonth (prevMonth (normYear y mm) (normMonth mm)).1
        (prevMonth (normYear y mm) (normMonth mm)).2,
      hour := h, minute := mi,
      month_pos := (prevMonth_bounds _ _ (normMonth_pos mm) (normMonth_le mm)).1,
      month_le := (prevMonth_bounds _ _ (normMonth_pos mm) (normMonth_le mm)).2,
      day_pos := one_le_daysInMonth _ _, day_le := le_refl _,
      hour_lt := hh, minute_lt := hmi }
  else
    { year := normYear y mm, month := normMonth mm, day := dd, hour := h, minute := mi,
      month_pos := normMonth_pos mm, month_le := normMonth_le mm,
      day_pos := by omega,
      day_le := by have := daysInMonth_ge (normYear y mm) (normMonth mm); omega,
      hour_lt := hh, minute_lt := hmi }

theorem mkDate_hour (y mm : Int) (dd h mi : Nat) (hdd : dd ≤ 28)
    (hh : h < 24) (hmi : mi < 60) : (mkDate y mm dd h mi hdd hh hmi).hour = h := by
  unfold mkDate; split <;> rfl

theorem mkDate_minute (y mm : Int) (dd h mi : Nat) (hdd : dd ≤ 28)
    (hh : h < 24) (hmi : mi < 60) : (mkDate y mm dd h mi hdd hh hmi).minute = mi := by
  unfold mkDate; split <;> rfl

theorem mkDate_day_pos (y mm : Int) (dd h mi : Nat) (hdd : dd ≤ 28)
    (hh : h < 24) (hmi : mi < 60) (hz : dd ≠ 0) :
    (mkDate y mm dd h mi hdd hh hmi).day = dd := by
  unfold mkDate; rw [dif_neg hz]

theorem mkDate_day_zero (y mm : Int) (h mi : Nat) (hdd : (0 : Nat) ≤ 28)
    (hh : h < 24) (hmi : mi < 60) :
    (mkDate y mm 0 h mi hdd hh hmi).day =
      daysInMonth (mkDate y mm 0 h mi hdd hh hmi).year
        (mkDate y mm 0 h mi hdd hh hmi).month := by
  unfold mkDate; rw [dif_pos rfl]

/-- Fuel-bounded distance (in days) from weekday `w` to the next weekday
whose value mod 7 is accepted by `s`.  Used only in termination measures
for the weekday and weekly search loops. -/
def distAux (s : List Nat) (w : Nat) : Nat → Nat
  | 0 => 0
  | n + 1 => if s.contains (w % 7) then 0 else distAux s (w + 1) n + 1

theorem distAux_le (s : List Nat) (w n : Nat) : distAux s w n ≤ n := by
  induction n generalizing w with
  | zero => simp [distAux]
  | succ n ih =>
    simp only [distAux]
    split
    · omega
    · exact Nat.succ_le_succ (ih _)

theorem distAux_of_contains (s : List Nat) (w k n : Nat)
    (hc : s.contains ((w + k) % 7) = true) (hk : k < n) : distAux s w n ≤ k := by
  induction n generalizing w k with
  | zero => omega
  | succ n ih =>
    simp only [distAux]
    split
    · omega
    · rename_i hnc
      cases k with
      | zero =>
        rw [Nat.add_zero] at hc
        rw [hc] at hnc
        simp at hnc
      | succ k =>
        have hc2 : s.contains ((w + 1 + k) % 7) = true := by
          have he : w + 1 + k = w + (k + 1) := by omega
          rw [he]
          exact hc
        exact Nat.succ_le_succ (ih _ _ hc2 (by omega))

theorem distAux_stable (s : List Nat) (w n : Nat) (h : distAux s w n < n) :
    distAux s w (n + 1) = distAux s w n := by
  induction n generalizing w with
  | zero => omega
  | succ n ih =>
    by_cases hc : s.contains (w % 7) = true
    · simp only [distAux, if_pos hc]
    · simp only [distAux, if_neg hc] at h ⊢
      have hlt : distAux s (w + 1) n < n := by omega
      have h2 := ih (w + 1) hlt
      simp only [distAux] at h2
      rw [h2]

theorem distAux_congr (s : List Nat) (w v n : Nat) (h : w % 7 = v % 7) :
    distAux s w n = distAux s v n := by
  induction n generalizing w v with
  | zero => rfl
  | succ n ih =>
    simp only [distAux]
    rw [h]
    split
    · rfl
    · rw [ih (w + 1) (v + 1) (by omega)]

/-- One loop step on a non-accepted weekday lowers the `distAux` measure. -/
theorem distAux_decrement (s : List Nat) (w : Nat) (hw : w < 7)
    (hnc : s.contains w = false) (hex : ∃ v ∈ s, v < 7) :
    distAux s ((w + 1) % 7) 8 + 1 = distAux s w 8 := by
  have h1 : distAux s w 8 = distAux s (w + 1) 7 + 1 := by
    have h8 : (8 : Nat) = 7 + 1 := rfl
    rw [h8]
    simp only [distAux]
    rw [Nat.mod_eq_of_lt hw, hnc]
    simp
  obtain ⟨v, hv, hv7⟩ := hex
  have hcv : s.contains v = true := List.elem_iff.mpr hv
  have hkl : (v + 7 - (w + 1) % 7) % 7 < 7 := Nat.mod_lt _ (by norm_num)
  have hck : s.contains ((w + 1 + (v + 7 - (w + 1) % 7) % 7) % 7) = true := by
    have he : (w + 1 + (v + 7 - (w + 1) % 7) % 7) % 7 = v := by omega
    rw [he]
    exact hcv
  have h2 : distAux s (w + 1) 7 ≤ (v + 7 - (w + 1) % 7) % 7 :=
    distAux_of_contains s (w + 1) _ 7 hck hkl
  have h3 : distAux s (w + 1) 8 = distAux s (w + 1) 7 := by
    have h8 : (8 : Nat) = 7 + 1 := rfl
    rw [h8]
    exact distAux_stable s (w + 1) 7 (by omega)
  have h4 : distAux s ((w + 1) % 7) 8 = distAux s (w + 1) 8 :=
    distAux_congr s _ _ 8 (by omega)
  omega

/-- Number of one-day steps needed to bring `t` up to `now`; a termination
measure for the catch-up loops. -/
def dayGap (now t : DateTime) : Nat :=
  ((toMinutes now - toMinutes t + 1439) / 1440).toNat

theorem dayGap_nextDay_of_before (now t : DateTime) (h : before t now) :
    dayGap now (nextDay t) = dayGap now t - 1 ∧ 1 ≤ dayGap now t := by
  unfold before at h
  unfold dayGap
  rw [toMinutes_nextDay]
  omega

theorem dayGap_nextDay_le (now t : DateTime) :
    dayGap now (nextDay t) ≤ dayGap now t := by
  unfold dayGap
  rw [toMinutes_nextDay]
  omega

theorem dayGap_eq_zero (now t : DateTime) (h : ¬ before t now) :
    dayGap now t = 0 := by
  unfold before at h
  unfold dayGap
  omega

/-- The catch-up loop of the `daily` branch of `calculateNextOccurrence`:
`for next.Before(now) { next = next.AddDate(0, 0, 1) }`. -/
def searchDaily (now t : DateTime) : DateTime :=
  if before t now then searchDaily now (nextDay t) else t
termination_by dayGap now t
decreasing_by
  have hd := dayGap_nextDay_of_before now t (by assumption)
  omega

/-- The catch-up loop of the `weekday` branch: advance one day while the
candidate is before `now` or falls on Saturday (6) or Sunday (0). -/
def searchWeekday (now t : DateTime) : DateTime :=
  if before t now ∨ weekday t = 6 ∨ weekday t = 0 then
    searchWeekday now (nextDay t)
  else t
termination_by 9 * dayGap now t + distAux [1, 2, 3, 4, 5] (weekday t) 8
decreasing_by
  rename_i h
  have hw := weekday_lt_7 t
  have hle := distAux_le [1, 2, 3, 4, 5] (weekday (nextDay t)) 8
  by_cases hb : before t now
  · have hd := dayGap_nextDay_of_before now t hb
    omega
  · have h06 : weekday t = 6 ∨ weekday t = 0 := by tauto
    have hnc : List.contains [1, 2, 3, 4, 5] (weekday t) = false := by
      rcases h06 with h6 | h0
      · rw [h6]; rfl
      · rw [h0]; rfl
    have hdec := distAux_decrement [1, 2, 3, 4, 5] (weekday t) hw hnc
      ⟨1, by simp, by omega⟩
    rw [weekday_nextDay]
    have hg0 : dayGap now t = 0 := dayGap_eq_zero now t hb
    have hg1 : dayGap now (nextDay t) ≤ dayGap now t := dayGap_nextDay_le now t
    omega

/-- The catch-up loop of the `weekly` branch: advance one day while the
candidate is before `now` or its weekday is not in the configured set.
`hex` records that the set accepts at least one weekday value; the day
tokens always parse to values below 7, so it holds at the call site. -/
def searchWeekly (now : DateTime) (wds : List Nat) (hex : ∃ v ∈ wds, v < 7)
    (t : DateTime) : DateTime :=
  if wds.contains (weekday t) = false ∨ before t now then
    searchWeekly now wds hex (nextDay t)
  else t
termination_by 9 * dayGap now t + distAux wds (weekday t) 8
decreasing_by
  rename_i h
  have hw := weekday_lt_7 t
  have hle := distAux_le wds (weekday (nextDay t)) 8
  by_cases hb : before t now
  · have hd := dayGap_nextDay_of_before now t hb
    omega
  · have hnc : wds.contains (weekday t) = false := by tauto
    have hdec := distAux_decrement wds (weekday t) hw hnc hex
    rw [weekday_nextDay]
    have hg0 : dayGap now t = 0 := dayGap_eq_zero now t hb
    have hg1 : dayGap now (nextDay t) ≤ dayGap now t := dayGap_nextDay_le now t
    omega

/-- The catch-up loop of the `monthly` branch:
`for next.Before(now) { next = next.AddDate(0, 1, 0) }`. -/
def searchMonthly (now t : DateTime) : DateTime :=
  if before t now then searchMonthly now (addOneMonth t) else t
termination_by (toMinutes now - toMinutes t).toNat
decreasing_by
  rename_i h
  have hm := toMinutes_addOneMonth t
  have h28 := daysInMonth_ge t.year t.month
  unfold before at h
  omega

theorem searchDaily_spec (now t : DateTime) :
    ¬ before (searchDaily now t) now ∧
      (searchDaily now t).hour = t.hour ∧
      (searchDaily now t).minute = t.minute := by
  refine searchDaily.induct now
    (fun u => ¬ before (searchDaily now u) now ∧
      (searchDaily now u).hour = u.hour ∧ (searchDaily now u).minute = u.minute)
    ?_ ?_ t
  · intro u hu ih
    rw [searchDaily, if_pos hu]
    exact ⟨ih.1, by rw [ih.2.1, nextDay_hour], by rw [ih.2.2, nextDay_minute]⟩
  · intro u hu
    rw [searchDaily, if_neg hu]
    exact ⟨hu, rfl, rfl⟩

theorem searchWeekday_spec (now t : DateTime) :
    ¬ before (searchWeekday now t) now ∧
      weekday (searchWeekday now t) ≠ 6 ∧ weekday (searchWeekday now t) ≠ 0 ∧
      (searchWeekday now t).hour = t.hour ∧
      (searchWeekday now t).minute = t.minute := by
  refine searchWeekday.induct now
    (fun u => ¬ before (searchWeekday now u) now ∧
      weekday (searchWeekday now u) ≠ 6 ∧ weekday (searchWeekday now u) ≠ 0 ∧
      (searchWeekday now u).hour = u.hour ∧
      (searchWeekday now u).minute = u.minute)
    ?_ ?_ t
  · intro u hu ih
    rw [searchWeekday, if_pos hu]
    exact ⟨ih.1, ih.2.1, ih.2.2.1,
      by rw [ih.2.2.2.1, nextDay_hour], by rw [ih.2.2.2.2, nextDay_minute]⟩
  · intro u hu
    rw [searchWeekday, if_neg hu]
    push_neg at hu
    exact ⟨hu.1, hu.2.1, hu.2.2, rfl, rfl⟩

theorem searchWeekly_spec (now : DateTime) (wds : List Nat)
    (hex : ∃ v ∈ wds, v < 7) (t : DateTime) :
    ¬ before (searchWeekly now wds hex t) now ∧
      wds.contains (weekday (searchWeekly now wds hex t)) = true ∧
      (searchWeekly now wds hex t).hour = t.hour ∧
      (searchWeekly now wds hex t).minute = t.minute := by
  refine searchWeekly.induct now wds hex
    (fun u => ¬ before (searchWeekly now wds hex u) now ∧
      wds.contains (weekday (searchWeekly now wds hex u)) = true ∧
      (searchWeekly now wds hex u).hour = u.hour ∧
      (searchWeekly now wds hex u).minute = u.minute)
    ?_ ?_ t
  · intro u hu ih
    rw [searchWeekly, if_pos hu]
    exact ⟨ih.1, ih.2.1,
      by rw [ih.2.2.1, nextDay_hour], by rw [ih.2.2.2, nextDay_minute]⟩
  · intro u hu
    rw [searchWeekly, if_neg hu]
    push_neg at hu
    refine ⟨hu.2, ?_, rfl, rfl⟩
    cases hc : wds.contains (weekday u)
    · exact absurd hc hu.1
    · rfl

theorem searchMonthly_spec (now t : DateTime) :
    ¬ before (searchMonthly now t) now := by
  refine searchMonthly.induct now
    (fun u => ¬ before (searchMonthly now u) now) ?_ ?_ t
  · intro u hu ih
    rw [searchMonthly, if_pos hu]
    exact ih
  · intro u hu
    rw [searchMonthly, if_neg hu]
    exact hu

/-- Go `strings.SplitN(s, sep, 2)` on character lists: find the leftmost
occurrence of `sep` and return the pieces before and after it; `none` when
`sep` does not occur.  `acc` holds the scanned part in reverse. -/
def splitFirstAux (sep acc : List Char) :
    List Char → Option (List Char × List Char)
  | [] => none
  | c :: cs =>
    if sep.isPrefixOf (c :: cs) then
      some (acc.reverse, (c :: cs).drop sep.length)
    else
      splitFirstAux sep (c :: acc) cs

theorem splitFirstAux_shrink (sep : List Char) (hs : sep ≠ []) :
    ∀ (cs acc l r : List Char),
      splitFirstAux sep acc cs = some (l, r) → r.length < cs.length := by
  intro cs
  induction cs with
  | nil =>
    intro acc l r h
    simp [splitFirstAux] at h
  | cons c cs ih =>
    intro acc l r h
    simp only [splitFirstAux] at h
    split at h
    · simp only [Option.some.injEq, Prod.mk.injEq] at h
      have hr : r = (c :: cs).drop sep.length := h.2.symm
      have hsl : 1 ≤ sep.length := by
        cases sep
        · exact absurd rfl hs
        · simp
      rw [hr]
      simp only [List.length_drop, List.length_cons]
      omega
    · have := ih (c :: acc) l r h
      simp only [List.length_cons]
      omega

/-- Go `strings.SplitN(s, sep, 2)` for nonempty `sep`, in the two-part
shape: `none` when the separator does not occur in `s`. -/
def goSplitFirst (sep s : String) : Option (String × String) :=
  (splitFirstAux sep.data [] s.data).map
    (fun p => (String.mk p.1, String.mk p.2))

/-- Go `strings.Split(s, sep)` on character lists (all occurrences,
leftmost first).  The empty-separator case is never used by the embedded
code and returns the input whole. -/
def splitAllAux (sep cs : List Char) : List (List Char) :=
  if hs : sep = [] then [cs]
  else
    match h : splitFirstAux sep [] cs with
    | none => [cs]
    | some (l, r) => l :: splitAllAux sep r
termination_by cs.length
decreasing_by
  exact splitFirstAux_shrink sep hs cs [] l r h

theorem splitAllAux_ne_nil (sep cs : List Char) : splitAllAux sep cs ≠ [] := by
  rw [splitAllAux]
  split
  · simp
  · split <;> simp

/-- Go `strings.Split(s, sep)`. -/
def goSplit (sep s : String) : List String :=
  (splitAllAux sep.data s.data).map String.mk

theorem goSplit_ne_nil (sep s : String) : goSplit sep s ≠ [] := by
  unfold goSplit
  have := splitAllAux_ne_nil sep.data s.data
  simp [this]

/-- One character of Go `strings.ToLower` (the ASCII range, which covers
every input the embedded code feeds it). -/
def charToLower (c : Char) : Char :=
  if 65 ≤ c.toNat ∧ c.toNat ≤ 90 then Char.ofNat (c.toNat + 32) else c

/-- Go `strings.ToLower`. -/
def goToLower (s : String) : String := String.mk (s.data.map charToLower)

/-- Go `strings.HasSuffix`. -/
def goHasSuffix (s suf : String) : Bool := suf.data.isSuffixOf s.data

/-- Go `strings.TrimSuffix`: drop the suffix when present. -/
def goTrimSuffix (s suf : String) : String :=
  if goHasSuffix s suf then
    String.mk (s.data.take (s.data.length - suf.data.length))
  else s

/-- ASCII whitespace, the relevant fragment of Go `unicode.IsSpace`. -/
def isSpaceChar (c : Char) : Bool :=
  c == ' ' || c == '\t' || c == '\n' || c == '\r'

/-- Go `strings.TrimSpace`. -/
def goTrimSpace (s : String) : String :=
  String.mk (((s.data.dropWhile isSpaceChar).reverse.dropWhile isSpaceChar).reverse)

/-- scheduler.go `parseWeekday`: case-insensitive weekday name, total with
Sunday (0) as the default for anything unrecognized. -/
def parseWeekday (day : String) : Nat :=
  match goToLower day with
  | "sunday" => 0
  | "monday" => 1
  | "tuesday" => 2
  | "wednesday" => 3
  | "thursday" => 4
  | "friday" => 5
  | "saturday" => 6
  | _ => 0

theorem parseWeekday_lt (day : String) : parseWeekday day < 7 := by
  unfold parseWeekday
  split <;> omega

/-- The seven weekday names recognized by `parseWeekday`. -/
def weekdayNames : List String :=
  ["sunday", "monday", "tuesday", "wednesday", "thursday", "friday", "saturday"]

theorem parseWeekday_default (day : String) (h : goToLower day ∉ weekdayNames) :
    parseWeekday day = 0 := by
  unfold parseWeekday
  split <;> simp_all [weekdayNames]

/-- Decimal value of a digit run, for the `%d` verb of `fmt.Sscanf`. -/
def digitsVal (ds : List Char) : Nat :=
  ds.foldl (fun n c => 10 * n + (c.toNat - 48)) 0

/-- Go `fmt.Sscanf(s, "%d", &v)` after space skipping: an optional sign
followed by a nonempty digit run; `none` when no digit is found (a scan
error, which leaves the Go target variable at its zero value).  Input
after the digit run is ignored, as `Sscanf` with a single `%d` does. -/
def scanIntFrom (cs : List Char) : Option Int :=
  match cs with
  | '-' :: rest =>
    if (rest.takeWhile Char.isDigit) = [] then none
    else some (-(digitsVal (rest.takeWhile Char.isDigit) : Int))
  | '+' :: rest =>
    if (rest.takeWhile Char.isDigit) = [] then none
    else some ((digitsVal (rest.takeWhile Char.isDigit) : Int))
  | rest =>
    if (rest.takeWhile Char.isDigit) = [] then none
    else some ((digitsVal (rest.takeWhile Char.isDigit) : Int))

/-- Go `fmt.Sscanf(s, "%d", &v)`: leading blanks are skipped by the verb. -/
def scanInt (s : String) : Option Int :=
  scanIntFrom (s.data.dropWhile (fun c => c = ' '))

/-- scheduler.go `parseMonthDay`: scan a decimal day out of the specifier
(0 if the scan fails), then clamp to the range [1, 28]. -/
def parseMonthDay (daySpec : String) : Nat :=
  if (scanInt daySpec).getD 0 < 1 then 1
  else if (scanInt daySpec).getD 0 > 28 then 28
  else ((scanInt daySpec).getD 0).toNat

theorem parseMonthDay_pos (daySpec : String) : 1 ≤ parseMonthDay daySpec := by
  unfold parseMonthDay
  split
  · omega
  · split <;> omega

theorem parseMonthDay_le (daySpec : String) : parseMonthDay daySpec ≤ 28 := by
  unfold parseMonthDay
  split
  · omega
  · split <;> omega

/-- scheduler.go `parseUserID`: `fmt.Sscanf(userID, "%d", &id)`. -/
def parseUserID (userID : String) : Option Int := scanInt userID

/-- The `daily` branch of `calculateNextOccurrence`. -/
def dailyNext (base now : DateTime) : DateTime :=
  searchDaily now (nextDay base)

/-- The `weekday` branch of `calculateNextOccurrence`. -/
def weekdayNext (base now : DateTime) : DateTime :=
  searchWeekday now (nextDay base)

theorem weeklyNext_hex (daysSpec : String) :
    ∃ v ∈ (goSplit "," daysSpec).map parseWeekday, v < 7 := by
  obtain ⟨x, xs, he⟩ := List.exists_cons_of_ne_nil (goSplit_ne_nil "," daysSpec)
  refine ⟨parseWeekday x, ?_, parseWeekday_lt x⟩
  rw [he]
  simp

/-- The `weekly` branch of `calculateNextOccurrence`: split the day list on
commas, map the tokens through `parseWeekday` (the membership map), and
advance day by day. -/
def weeklyNext (daysSpec : String) (base now : DateTime) : DateTime :=
  searchWeekly now ((goSplit "," daysSpec).map parseWeekday)
    (weeklyNext_hex daysSpec) (nextDay base)

/-- The `monthly` branch of `calculateNextOccurrence`: advance whole months
until the candidate is not before `now`, then pin the day-of-month from the
specifier (`first`, `last`, or a clamped day number) at the hour and minute
of `base`. -/
def monthlyNext (daySpec : String) (base now : DateTime) : DateTime :=
  match daySpec with
  | "first" =>
    mkDate (searchMonthly now (addOneMonth base)).year
      ((searchMonthly now (addOneMonth base)).month : Int) 1
      base.hour base.minute (by omega) base.hour_lt base.minute_lt
  | "last" =>
    mkDate (searchMonthly now (addOneMonth base)).year
      (((searchMonthly now (addOneMonth base)).month : Int) + 1) 0
      base.hour base.minute (by omega) base.hour_lt base.minute_lt
  | _ =>
    mkDate (searchMonthly now (addOneMonth base)).year
      ((searchMonthly now (addOneMonth base)).month : Int)
      (parseMonthDay daySpec)
      base.hour base.minute (parseMonthDay_le daySpec) base.hour_lt base.minute_lt

/-- scheduler.go `calculateNextOccurrence`, as a function of the stored
recurrence pattern, the due time of the current occurrence
(`base = r.DueTime`), and the current time `now`.  Mirrors
`strings.SplitN(pattern, ":", 2)` followed by the branch switch; a
single-part pattern is accepted only for `daily` and `weekday`. -/
def calculateNextOccurrence (pattern : String) (base now : DateTime) :
    Except String DateTime :=
  match goSplitFirst ":" pattern with
  | none =>
    match pattern with
    | "daily" => .ok (dailyNext base now)
    | "weekday" => .ok (weekdayNext base now)
    | _ => .error ("invalid recurrence pattern: " ++ pattern)
  | some (p0, p1) =>
    match p0 with
    | "daily" => .ok (dailyNext base now)
    | "weekday" => .ok (weekdayNext base now)
    | "weekly" => .ok (weeklyNext p1 base now)
    | "monthly" => .ok (monthlyNext p1 base now)
    | _ => .error ("unsupported recurrence pattern: " ++ pattern)

/-- The pattern kind: the part before the first colon (the whole pattern
when there is no colon), as `parts[0]` of the Go `SplitN` call. -/
def patHead (pattern : String) : String :=
  match goSplitFirst ":" pattern with
  | none => pattern
  | some p => p.1

/-- The pattern parameter: the part after the first colon (empty when there
is no colon), as `parts[1]` of the Go `SplitN` call. -/
def patRest (pattern : String) : String :=
  match goSplitFirst ":" pattern with
  | none => ""
  | some p => p.2

/-- types.go status constants (`Status` is a string type in the source). -/
def StatusPending : String := "pending"

def StatusCompleted : String := "completed"

def StatusCancelled : String := "cancelled"

/-- types.go notification type constants. -/
def NotificationTelegramMessage : String := "telegram_message"

def NotificationTelegramCall : String := "telegram_call"

/-- The Go zero `time.Time`: 1 January of year 1, midnight. -/
def dtZero : DateTime :=
  ⟨1, 1, 1, 0, 0, by decide, by decide, by decide, by decide, by decide, by decide⟩

/-- types.go `Reminder`.  `dueTime` models Go `DueTime`; `IsZero` is
equality with `dtZero`. -/
structure Reminder where
  id : String
  userID : String
  title : String
  description : String
  dueTime : DateTime
  recurrencePattern : String
  priority : Bool
  status : String
  createdAt : DateTime
  updatedAt : DateTime
deriving DecidableEq

/-- types.go `NotificationLog`. -/
structure NotificationLog where
  id : String
  reminderID : String
  notificationType : String
  status : String
  errorMessage : String
  attemptedAt : DateTime
deriving DecidableEq

/-- The SQLite store (sqlite.go), modelled relationally: the reminders
table, the reminder_logs table, and a counter standing in for `uuid.New`. -/
structure Store where
  reminders : List Reminder
  logs : List NotificationLog
  nextId : Nat
deriving DecidableEq

/-- sqlite.go `CreateReminder`: assign a fresh id when empty, default the
creation time, stamp the update time, and insert the row. -/
def createReminder (st : Store) (r : Reminder) (now : DateTime) : Store :=
  { st with
    reminders := st.reminders ++
      [{ r with
          id := if r.id = "" then toString st.nextId else r.id,
          createdAt := if r.createdAt = dtZero then now else r.createdAt,
          updatedAt := now }],
    nextId := st.nextId + 1 }

/-- sqlite.go `GetReminder`: the row with the given id (`none` models the
not-found error). -/
def getReminder (st : Store) (id : String) : Option Reminder :=
  st.reminders.find? (fun r => r.id == id)

/-- sqlite.go `UpdateReminder`: SQL UPDATE of every row with the id (ids
are unique in practice), an error when no row is affected. -/
def updateReminder (st : Store) (r : Reminder) (now : DateTime) :
    Except String Store :=
  if st.reminders.any (fun x => x.id == r.id) then
    .ok { st with reminders := (st.reminders.map
      (fun x => if x.id == r.id then { r with updatedAt := now } else x)) }
  else .error ("reminder not found: " ++ r.id)

/-- sqlite.go `CreateNotificationLog`: assign a fresh id when empty,
default the attempt time, and append the row. -/
def createNotificationLog (st : Store) (lg : NotificationLog) (now : DateTime) :
    Store :=
  { st with
    logs := st.logs ++
      [{ lg with
          id := if lg.id = "" then toString st.nextId else lg.id,
          attemptedAt := if lg.attemptedAt = dtZero then now else lg.attemptedAt }],
    nextId := st.nextId + 1 }

namespace ReminderService

/-- sqlite.go `service.Create`: validation, status defaulting, then store
insert.  The result pairs the store with the error (`none` = success); a
validation failure leaves the store untouched. -/
def Create (r : Reminder) (st : Store) (now : DateTime) : Store × Option String :=
  if r.title = "" then (st, some "reminder title is required")
  else if r.dueTime = dtZero then (st, some "reminder due time is required")
  else if before r.dueTime now then
    (st, some "reminder due time must be in the future")
  else
    (createReminder st
      (if r.status = "" then { r with status := StatusPending } else r) now,
     none)

/-- sqlite.go `service.Get`: passthrough to the store. -/
def Get (st : Store) (id : String) : Option Reminder := getReminder st id

/-- sqlite.go `service.Update`: the same validation as `Create`, then a
store update that fails when the reminder no longer exists. -/
def Update (r : Reminder) (st : Store) (now : DateTime) : Store × Option String :=
  if r.title = "" then (st, some "reminder title is required")
  else if r.dueTime = dtZero then (st, some "reminder due time is required")
  else if before r.dueTime now then
    (st, some "reminder due time must be in the future")
  else
    match updateReminder st r now with
    | .ok st2 => (st2, none)
    | .error e => (st, some e)

/-- sqlite.go `service.Complete`: fetch the record, set the status to
Completed unconditionally, write it back. -/
def Complete (id : String) (st : Store) (now : DateTime) : Store × Option String :=
  match getReminder st id with
  | none => (st, some ("reminder not found: " ++ id))
  | some r =>
    match updateReminder st { r with status := StatusCompleted } now with
    | .ok st2 => (st2, none)
    | .error e => (st, some e)

/-- sqlite.go `service.Cancel`: fetch the record, set the status to
Cancelled unconditionally, write it back. -/
def Cancel (id : String) (st : Store) (now : DateTime) : Store × Option String :=
  match getReminder st id with
  | none => (st, some ("reminder not found: " ++ id))
  | some r =>
    match updateReminder st { r with status := StatusCancelled } now with
    | .ok st2 => (st2, none)
    | .error e => (st, some e)

/-- sqlite.go `service.LogNotification`: passthrough create. -/
def LogNotification (lg : NotificationLog) (st : Store) (now : DateTime) : Store :=
  createNotificationLog st lg now

end ReminderService

/-- scheduler.go `sendNotification`, its synchronous part: parse the user
id, attempt the primary message send (`sendOk` gives the transport
outcome), and on success log one `telegram_message` entry with status
"success".  A transport failure returns the error before any log entry is
written.  The deferred priority escalation runs detached and is modelled
separately as `escalationFire`. -/
def sendNotification (r : Reminder) (st : Store) (now : DateTime)
    (sendOk : Bool) : Store × Option String :=
  match parseUserID r.userID with
  | none => (st, some "invalid user ID")
  | some _ =>
    if sendOk = false then (st, some "failed to send message")
    else
      (ReminderService.LogNotification
        { id := "", reminderID := r.id,
          notificationType := NotificationTelegramMessage,
          status := "success", errorMessage := "", attemptedAt := now } st now,
       none)

/-- scheduler.go `scheduleNextRecurrence`: compute the next occurrence
from the stored pattern and the current due time, mark the current
reminder Completed, then create the successor carrying the same user,
title, description, pattern, and priority with the new due time.  The
first failing step aborts the sequence, leaving the store as it was at
that point. -/
def scheduleNextRecurrence (r : Reminder) (st : Store) (now : DateTime) :
    Store × Option String :=
  match calculateNextOccurrence r.recurrencePattern r.dueTime now with
  | .error e => (st, some e)
  | .ok nextTime =>
    match ReminderService.Complete r.id st now with
    | (st1, some e) => (st1, some ("failed to complete current reminder: " ++ e))
    | (st1, none) =>
      ReminderService.Create
        { id := "", userID := r.userID, title := r.title,
          description := r.description, dueTime := nextTime,
          recurrencePattern := r.recurrencePattern, priority := r.priority,
          status := StatusPending, createdAt := now, updatedAt := now } st1 now

/-- One iteration of the loop in scheduler.go `checkReminders`, for one
fetched reminder and a given transport outcome: skip the reminder if its
due time has not passed; on a send error change nothing further (the
reminder stays Pending and is re-examined on the next tick); otherwise
re-enroll a recurring reminder or complete a one-time one.  Errors of the
later steps are logged and otherwise dropped. -/
def checkRemindersStep (r : Reminder) (st : Store) (now : DateTime)
    (sendOk : Bool) : Store :=
  if before now r.dueTime then st
  else
    match sendNotification r st now sendOk with
    | (st1, some _) => st1
    | (st1, none) =>
      if r.recurrencePattern ≠ "" then (scheduleNextRecurrence r st1 now).1
      else (ReminderService.Complete r.id st1 now).1

/-- The deferred escalation of scheduler.go `sendNotification` for a
priority reminder, firing after the fixed two-minute delay: re-fetch the
reminder; if the fetch fails or the status is no longer Pending, do
nothing; otherwise attempt the escalation send and, only when the
transport succeeds, log one `telegram_call` entry.  The first component
records whether a send was attempted. -/
def escalationFire (st : Store) (id : String) (now : DateTime)
    (sendOk : Bool) : Bool × Store :=
  match ReminderService.Get st id with
  | none => (false, st)
  | some rem =>
    if rem.status ≠ StatusPending then (false, st)
    else if sendOk = false then (true, st)
    else
      (true, ReminderService.LogNotification
        { id := "", reminderID := id,
          notificationType := NotificationTelegramCall,
          status := "success", errorMessage := "", attemptedAt := now } st now)

/-- The parser.go format error of `ParseCommand` (the single-quote marks
of the Go message literal are omitted here). -/
def formatErrMsg : String := "invalid format: use /remindme time to message"

/-- The priority-marker step of parser.go `ParseCommand`: when the input
ends in "-call", set the priority flag and trim the marker off the
space-trimmed input. -/
def stripCall (input : String) : String × Bool :=
  if goHasSuffix input "-call" then
    (goTrimSuffix (goTrimSpace input) "-call", true)
  else (input, false)

/-- parser.go `ParseCommand`, parameterized by the time-expression
resolver `pte` (parser.go `ParseTimeExpression`, which reads the wall
clock and the Go time-format tables, treated here as a collaborator that
never produces the format error): strip the trailing priority marker,
split the rest at the first " to " — or, when " to " does not occur at
all, at the first " that " — trim both parts, and resolve the left part
as the time expression.  `formatErrMsg` is returned exactly when neither
separator occurs. -/
def ParseCommand (pte : String → Except String DateTime) (input : String) :
    Except String (DateTime × String × Bool) :=
  match goSplitFirst " to " (stripCall input).1 with
  | some p =>
    match pte (goTrimSpace p.1) with
    | .error e => .error e
    | .ok t => .ok (t, goTrimSpace p.2, (stripCall input).2)
  | none =>
    match goSplitFirst " that " (stripCall input).1 with
    | some p =>
      match pte (goTrimSpace p.1) with
      | .error e => .error e
      | .ok t => .ok (t, goTrimSpace p.2, (stripCall input).2)
    | none => .error formatErrMsg

/-- Written from the wording of claim C9, not from the source: the split
of the text at the earliest occurrence of either separator phrase
(" to " or " that "), whichever comes first in the string. -/
def earliestSepSplit (s : String) : Option (String × String) :=
  match goSplitFirst " to " s, goSplitFirst " that " s with
  | none, none => none
  | some p, none => some p
  | none, some q => some q
  | some p, some q => if p.1.length ≤ q.1.length then some p else some q

theorem searchDaily_stop (now t : DateTime) (h : ¬ before t now) :
    searchDaily now t = t := by
  rw [searchDaily, if_neg h]

theorem searchMonthly_stop (now t : DateTime) (h : ¬ before t now) :
    searchMonthly now t = t := by
  rw [searchMonthly, if_neg h]

/-- Concrete `DateTime` constructor for the statements below. -/
def mkDT (y : Int) (m d h mi : Nat) (h1 : 1 ≤ m := by decide)
    (h2 : m ≤ 12 := by decide) (h3 : 1 ≤ d := by decide)
    (h4 : d ≤ daysInMonth y m := by decide) (h5 : h < 24 := by decide)
    (h6 : mi < 60 := by decide) : DateTime :=
  ⟨y, m, d, h, mi, h1, h2, h3, h4, h5, h6⟩

theorem dailyNext_spec (base now : DateTime) :
    ¬ before (dailyNext base now) now ∧
      (dailyNext base now).hour = base.hour ∧
      (dailyNext base now).minute = base.minute := by
  unfold dailyNext
  have hs := searchDaily_spec now (nextDay base)
  exact ⟨hs.1, by rw [hs.2.1, nextDay_hour], by rw [hs.2.2, nextDay_minute]⟩

theorem weekdayNext_spec (base now : DateTime) :
    ¬ before (weekdayNext base now) now ∧
      weekday (weekdayNext base now) ≠ 6 ∧ weekday (weekdayNext base now) ≠ 0 ∧
      (weekdayNext base now).hour = base.hour ∧
      (weekdayNext base now).minute = base.minute := by
  unfold weekdayNext
  have hs := searchWeekday_spec now (nextDay base)
  exact ⟨hs.1, hs.2.1, hs.2.2.1,
    by rw [hs.2.2.2.1, nextDay_hour], by rw [hs.2.2.2.2, nextDay_minute]⟩

theorem weeklyNext_spec (daysSpec : String) (base now : DateTime) :
    ¬ before (weeklyNext daysSpec base now) now ∧
      ((goSplit "," daysSpec).map parseWeekday).contains
        (weekday (weeklyNext daysSpec base now)) = true ∧
      (weeklyNext daysSpec base now).hour = base.hour ∧
      (weeklyNext daysSpec base now).minute = base.minute := by
  unfold weeklyNext
  have hs := searchWeekly_spec now ((goSplit "," daysSpec).map parseWeekday)
    (weeklyNext_hex daysSpec) (nextDay base)
  exact ⟨hs.1, hs.2.1,
    by rw [hs.2.2.1, nextDay_hour], by rw [hs.2.2.2, nextDay_minute]⟩

theorem monthlyNext_spec (daySpec : String) (base now : DateTime) :
    (monthlyNext daySpec base now).hour = base.hour ∧
    (monthlyNext daySpec base now).minute = base.minute ∧
    (daySpec = "first" → (monthlyNext daySpec base now).day = 1) ∧
    (daySpec = "last" →
      (monthlyNext daySpec base now).day =
        daysInMonth (monthlyNext daySpec base now).year
          (monthlyNext daySpec base now).month) ∧
    (daySpec ≠ "first" → daySpec ≠ "last" →
      (monthlyNext daySpec base now).day = parseMonthDay daySpec) := by
  unfold monthlyNext
  split
  · refine ⟨mkDate_hour _ _ _ _ _ _ _ _, mkDate_minute _ _ _ _ _ _ _ _, ?_, ?_, ?_⟩
    · intro _
      rw [mkDate_day_pos]
      omega
    · intro hq
      exact absurd hq (by decide)
    · intro hq _
      exact absurd rfl hq
  · refine ⟨mkDate_hour _ _ _ _ _ _ _ _, mkDate_minute _ _ _ _ _ _ _ _, ?_, ?_, ?_⟩
    · intro hq
      exact absurd hq (by decide)
    · intro _
      exact mkDate_day_zero _ _ _ _ _ _ _
    · intro _ hq
      exact absurd rfl hq
  · rename_i hq1 hq2
    refine ⟨mkDate_hour _ _ _ _ _ _ _ _, mkDate_minute _ _ _ _ _ _ _ _, ?_, ?_, ?_⟩
    · intro hq
      exact absurd hq hq1
    · intro hq
      exact absurd hq hq2
    · intro _ _
      rw [mkDate_day_pos]
      have := parseMonthDay_pos daySpec
      omega

/-- The full case analysis of a successful `calculateNextOccurrence` call:
hour and minute always come from `base`; the daily, weekday, and weekly
kinds also guarantee a result not before `now` together with their
weekday constraint; the monthly kinds guarantee only the day-of-month
constraint of the specifier. -/
theorem nextOccurrence_cases (pat : String) (base now res : DateTime)
    (h : calculateNextOccurrence pat base now = .ok res) :
    (res.hour = base.hour ∧ res.minute = base.minute) ∧
    (patHead pat = "daily" → ¬ before res now) ∧
    (patHead pat = "weekday" →
      ¬ before res now ∧ weekday res ≠ 6 ∧ weekday res ≠ 0) ∧
    (patHead pat = "weekly" →
      ¬ before res now ∧
        ((goSplit "," (patRest pat)).map parseWeekday).contains
          (weekday res) = true) ∧
    (patHead pat = "monthly" →
      (patRest pat = "first" → res.day = 1) ∧
      (patRest pat = "last" →
        res.day = daysInMonth res.year res.month) ∧
      (patRest pat ≠ "first" → patRest pat ≠ "last" →
        res.day = parseMonthDay (patRest pat))) := by
  unfold calculateNextOccurrence at h
  split at h
  · rename_i hsp
    have hhead : patHead pat = pat := by unfold patHead; rw [hsp]
    split at h
    · simp only [Except.ok.injEq] at h
      subst h
      have hd := dailyNext_spec base now
      refine ⟨⟨hd.2.1, hd.2.2⟩, fun _ => hd.1, ?_, ?_, ?_⟩ <;>
        (intro hq; rw [hhead] at hq; exact absurd hq (by decide))
    · simp only [Except.ok.injEq] at h
      subst h
      have hd := weekdayNext_spec base now
      refine ⟨⟨hd.2.2.2.1, hd.2.2.2.2⟩, ?_, fun _ => ⟨hd.1, hd.2.1, hd.2.2.1⟩, ?_, ?_⟩ <;>
        (intro hq; rw [hhead] at hq; exact absurd hq (by decide))
    · exact Except.noConfusion h
  · rename_i p0 p1 hsp
    have hhead : patHead pat = p0 := by unfold patHead; rw [hsp]
    have hrest : patRest pat = p1 := by unfold patRest; rw [hsp]
    split at h
    · simp only [Except.ok.injEq] at h
      subst h
      have hd := dailyNext_spec base now
      refine ⟨⟨hd.2.1, hd.2.2⟩, fun _ => hd.1, ?_, ?_, ?_⟩ <;>
        (intro hq; rw [hhead] at hq; exact absurd hq (by decide))
    · simp only [Except.ok.injEq] at h
      subst h
      have hd := weekdayNext_spec base now
      refine ⟨⟨hd.2.2.2.1, hd.2.2.2.2⟩, ?_, fun _ => ⟨hd.1, hd.2.1, hd.2.2.1⟩, ?_, ?_⟩ <;>
        (intro hq; rw [hhead] at hq; exact absurd hq (by decide))
    · simp only [Except.ok.injEq] at h
      subst h
      have hd := weeklyNext_spec p1 base now
      rw [hrest]
      refine ⟨⟨hd.2.2.1, hd.2.2.2⟩, ?_, ?_, fun _ => ⟨hd.1, hd.2.1⟩, ?_⟩ <;>
        (intro hq; rw [hhead] at hq; exact absurd hq (by decide))
    · simp only [Except.ok.injEq] at h
      subst h
      have hd := monthlyNext_spec p1 base now
      rw [hrest]
      refine ⟨⟨hd.1, hd.2.1⟩, ?_, ?_, ?_, fun _ => ⟨hd.2.2.1, hd.2.2.2.1, hd.2.2.2.2⟩⟩ <;>
        (intro hq; rw [hhead] at hq; exact absurd hq (by decide))
    · exact Except.noConfusion h

/-- C1 (amended): for every pattern accepted by the recurrence engine and
for all `base` and `now`, the result of `calculateNextOccurrence` carries
the hour and minute of `base`; for the daily, weekday, and weekly kinds it
is moreover not before `now` and satisfies the day-of-week constraint of
the pattern; for the monthly kinds only the day-of-month constraint of the
specifier is guaranteed — pinning the day can move the result back before
`now`, as `c1_counterexample` shows, so the original claim fails there. -/
theorem c1_nextOccurrence_constraints (pat : String) (base now res : DateTime)
    (h : calculateNextOccurrence pat base now = .ok res) :
    (res.hour = base.hour ∧ res.minute = base.minute) ∧
    (patHead pat = "daily" → ¬ before res now) ∧
    (patHead pat = "weekday" →
      ¬ before res now ∧ weekday res ≠ 6 ∧ weekday res ≠ 0) ∧
    (patHead pat = "weekly" →
      ¬ before res now ∧
        ((goSplit "," (patRest pat)).map parseWeekday).contains
          (weekday res) = true) ∧
    (patHead pat = "monthly" →
      (patRest pat = "first" → res.day = 1) ∧
      (patRest pat = "last" →
        res.day = daysInMonth res.year res.month) ∧
      (patRest pat ≠ "first" → patRest pat ≠ "last" →
        res.day = parseMonthDay (patRest pat))) :=
  nextOccurrence_cases pat base now res h

/-- C1 witness: the daily pattern with base 2024-01-15 10:00 and now
2024-01-16 00:00 yields 2024-01-16 10:00, which is not before `now` and
keeps the anchor hour. -/
theorem c1_witness :
    calculateNextOccurrence "daily" (mkDT 2024 1 15 10 0) (mkDT 2024 1 16 0 0) =
      .ok (mkDT 2024 1 16 10 0) ∧
    ¬ before (mkDT 2024 1 16 10 0) (mkDT 2024 1 16 0 0) ∧
    (mkDT 2024 1 16 10 0).hour = (mkDT 2024 1 15 10 0).hour := by
  have h1 : nextDay (mkDT 2024 1 15 10 0) = mkDT 2024 1 16 10 0 := by decide
  have h2 : searchDaily (mkDT 2024 1 16 0 0) (mkDT 2024 1 16 10 0) =
      mkDT 2024 1 16 10 0 := searchDaily_stop _ _ (by decide)
  have h3 : dailyNext (mkDT 2024 1 15 10 0) (mkDT 2024 1 16 0 0) =
      mkDT 2024 1 16 10 0 := by
    unfold dailyNext
    rw [h1, h2]
  have hcalc : calculateNextOccurrence "daily" (mkDT 2024 1 15 10 0)
      (mkDT 2024 1 16 0 0) = .ok (mkDT 2024 1 16 10 0) :=
    congrArg Except.ok h3
  have hs := c1_nextOccurrence_constraints "daily" _ _ _ hcalc
  exact ⟨hcalc, hs.2.1 (by decide), hs.1.1⟩

/-- C1 counterexample: for the pattern "monthly:first" with base
2024-01-15 10:00 and now 2024-02-10 00:00, the engine first advances to
2024-02-15 (not before `now`) and then pins the day to 1, returning
2024-02-01 10:00 — a timestamp before `now`, refuting the claim that every
result is at or after `now`. -/
theorem c1_counterexample :
    calculateNextOccurrence "monthly:first" (mkDT 2024 1 15 10 0)
        (mkDT 2024 2 10 0 0) = .ok (mkDT 2024 2 1 10 0) ∧
    before (mkDT 2024 2 1 10 0) (mkDT 2024 2 10 0 0) := by
  have h1 : addOneMonth (mkDT 2024 1 15 10 0) = mkDT 2024 2 15 10 0 := by decide
  have h2 : searchMonthly (mkDT 2024 2 10 0 0) (mkDT 2024 2 15 10 0) =
      mkDT 2024 2 15 10 0 := searchMonthly_stop _ _ (by decide)
  have h3 : monthlyNext "first" (mkDT 2024 1 15 10 0) (mkDT 2024 2 10 0 0) =
      mkDT 2024 2 1 10 0 := by
    unfold monthlyNext
    rw [h1, h2]
    decide
  exact ⟨congrArg Except.ok h3, by decide⟩

/-- The concrete monthly:last evaluation shared by the C2 theorems: Go
date normalization sends Jan 31 + one month to Mar 2, so the pinned last
day is 2024-03-31, not 2024-02-29. -/
theorem monthlyLast_concrete_eval :
    calculateNextOccurrence "monthly:last" (mkDT 2024 1 31 10 0)
      (mkDT 2024 2 1 0 0) = .ok (mkDT 2024 3 31 10 0) := by
  have h1 : addOneMonth (mkDT 2024 1 31 10 0) = mkDT 2024 3 2 10 0 := by decide
  have h2 : searchMonthly (mkDT 2024 2 1 0 0) (mkDT 2024 3 2 10 0) =
      mkDT 2024 3 2 10 0 := searchMonthly_stop _ _ (by decide)
  have h3 : monthlyNext "last" (mkDT 2024 1 31 10 0) (mkDT 2024 2 1 0 0) =
      mkDT 2024 3 31 10 0 := by
    unfold monthlyNext
    rw [h1, h2]
    decide
  exact congrArg Except.ok h3

/-- C2 (amended): a successful monthly:last computation pins the result to
the last calendar day of the month it lands in, at the hour and minute of
`base`; but for base 2024-01-31 (now 2024-02-01) the month advance
normalizes Jan 31 + 1 month to Mar 2, so the occurrence lands on
2024-03-31, not on 2024-02-29 as the original scenario claimed. -/
theorem c2_monthlyLast (pat : String) (base now res : DateTime)
    (h : calculateNextOccurrence pat base now = .ok res)
    (hh : patHead pat = "monthly") (hr : patRest pat = "last") :
    (res.day = daysInMonth res.year res.month ∧
      res.hour = base.hour ∧ res.minute = base.minute) ∧
    calculateNextOccurrence "monthly:last" (mkDT 2024 1 31 10 0)
      (mkDT 2024 2 1 0 0) = .ok (mkDT 2024 3 31 10 0) := by
  have hs := nextOccurrence_cases pat base now res h
  exact ⟨⟨(hs.2.2.2.2 hh).2.1 hr, hs.1.1, hs.1.2⟩, monthlyLast_concrete_eval⟩

/-- C2 witness: the general part of `c2_monthlyLast` applied to the
concrete 2024-01-31 scenario. -/
theorem c2_witness :
    patHead "monthly:last" = "monthly" ∧ patRest "monthly:last" = "last" ∧
    (mkDT 2024 3 31 10 0).day =
      daysInMonth (mkDT 2024 3 31 10 0).year (mkDT 2024 3 31 10 0).month := by
  refine ⟨by decide, by decide, ?_⟩
  exact ((c2_monthlyLast "monthly:last" _ _ _ monthlyLast_concrete_eval
    (by decide) (by decide)).1).1

/-- C2 counterexample: for base 2024-01-31 10:00 and now 2024-02-01, the
engine returns 2024-03-31 10:00, not the 2024-02-29 of the claim (and that
claimed timestamp is indeed not before `now`, so the proviso of the claim
is met). -/
theorem c2_counterexample :
    calculateNextOccurrence "monthly:last" (mkDT 2024 1 31 10 0)
        (mkDT 2024 2 1 0 0) = .ok (mkDT 2024 3 31 10 0) ∧
    mkDT 2024 3 31 10 0 ≠ mkDT 2024 2 29 10 0 ∧
    ¬ before (mkDT 2024 2 29 10 0) (mkDT 2024 2 1 0 0) :=
  ⟨monthlyLast_concrete_eval, by decide, by decide⟩

/-- C7 (confirmed): a monthly pattern whose specifier is neither "first"
nor "last" always lands on the clamped day `parseMonthDay`, which lies in
[1, 28]; in particular the result day is never 29, 30, or 31. -/
theorem c7_monthly_day_clamped (pat : String) (base now res : DateTime)
    (hh : patHead pat = "monthly") (hf : patRest pat ≠ "first")
    (hl : patRest pat ≠ "last")
    (h : calculateNextOccurrence pat base now = .ok res) :
    1 ≤ res.day ∧ res.day ≤ 28 ∧ res.day = parseMonthDay (patRest pat) := by
  have hs := nextOccurrence_cases pat base now res h
  have hd := (hs.2.2.2.2 hh).2.2 hf hl
  refine ⟨?_, ?_, hd⟩ <;> rw [hd]
  · exact parseMonthDay_pos _
  · exact parseMonthDay_le _

/-- C7 witness: the pattern "monthly:15" with base 2024-01-15 10:00 and
now 2024-02-01 yields 2024-02-15 10:00, whose day is within [1, 28]. -/
theorem c7_witness :
    calculateNextOccurrence "monthly:15" (mkDT 2024 1 15 10 0)
        (mkDT 2024 2 1 0 0) = .ok (mkDT 2024 2 15 10 0) ∧
    1 ≤ (mkDT 2024 2 15 10 0).day ∧ (mkDT 2024 2 15 10 0).day ≤ 28 := by
  have h1 : addOneMonth (mkDT 2024 1 15 10 0) = mkDT 2024 2 15 10 0 := by decide
  have h2 : searchMonthly (mkDT 2024 2 1 0 0) (mkDT 2024 2 15 10 0) =
      mkDT 2024 2 15 10 0 := searchMonthly_stop _ _ (by decide)
  have h3 : monthlyNext "15" (mkDT 2024 1 15 10 0) (mkDT 2024 2 1 0 0) =
      mkDT 2024 2 15 10 0 := by
    unfold monthlyNext
    rw [h1, h2]
    decide
  have hcalc : calculateNextOccurrence "monthly:15" (mkDT 2024 1 15 10 0)
      (mkDT 2024 2 1 0 0) = .ok (mkDT 2024 2 15 10 0) :=
    congrArg Except.ok h3
  have hs := c7_monthly_day_clamped "monthly:15" _ _ _ (by decide) (by decide)
    (by decide) hcalc
  exact ⟨hcalc, hs.1, hs.2.1⟩

/-- C10 (amended): `parseWeekday` is total, bounded by 7, and maps every
token whose lowercased form is not one of the seven weekday names to
Sunday (0); and the weekly branch of the recurrence engine never fails,
whatever the stored day tokens are.  (The original claim spoke of tokens
not among the lowercase names; an uppercase valid name such as "MONDAY"
is matched case-insensitively rather than defaulted to Sunday, see
`c10_counterexample`.) -/
theorem c10_weekly_day_tokens (day pat p1 : String) (base now : DateTime)
    (hd : goToLower day ∉ weekdayNames)
    (hs : goSplitFirst ":" pat = some ("weekly", p1)) :
    parseWeekday day = 0 ∧ parseWeekday day < 7 ∧
    (calculateNextOccurrence pat base now).isOk = true := by
  refine ⟨parseWeekday_default day hd, parseWeekday_lt day, ?_⟩
  unfold calculateNextOccurrence
  rw [hs]
  rfl

/-- C10 counterexample: "MONDAY" is not one of the seven lowercase weekday
names, yet `parseWeekday` maps it to Monday (1), not Sunday (0): the
comparison happens after lowercasing. -/
theorem c10_counterexample :
    "MONDAY" ∉ weekdayNames ∧ parseWeekday "MONDAY" = 1 := by
  exact ⟨by decide, by decide⟩

/-- C10 witness: a malformed token "funday" defaults to Sunday and a
weekly pattern containing it still computes an occurrence. -/
theorem c10_witness :
    goToLower "funday" ∉ weekdayNames ∧
    goSplitFirst ":" "weekly:funday" = some ("weekly", "funday") ∧
    parseWeekday "funday" = 0 ∧
    (calculateNextOccurrence "weekly:funday" (mkDT 2024 1 15 10 0)
      (mkDT 2024 1 16 0 0)).isOk = true := by
  have h := c10_weekly_day_tokens "funday" "weekly:funday" "funday"
    (mkDT 2024 1 15 10 0) (mkDT 2024 1 16 0 0) (by decide) (by decide)
  exact ⟨by decide, by decide, h.1, h.2.2⟩

/-- After a successful read-modify-write of `Complete`/`Cancel` style (set
`status := stat` on the fetched record and update), the reminder fetched
back under the id carries exactly that status, whatever it was before. -/
theorem update_sets_status (id : String) (st st2 : Store) (now : DateTime)
    (r : Reminder) (stat : String) (hget : getReminder st id = some r)
    (hupd : updateReminder st { r with status := stat } now = .ok st2) :
    ∀ r2, getReminder st2 id = some r2 →
      r2 = { r with status := stat, updatedAt := now } := by
  intro r2 h2
  have hget2 : List.find? (fun rr => rr.id == id) st.reminders = some r := hget
  have hid := List.find?_some hget2
  have hid2 : r.id = id := by simpa using hid
  unfold updateReminder at hupd
  split at hupd
  · simp only [Except.ok.injEq] at hupd
    subst hupd
    unfold getReminder at h2 hget
    simp only at h2
    rw [List.find?_map] at h2
    have hpf : ((fun x : Reminder => x.id == id) ∘
        (fun x : Reminder =>
          if x.id == ({ r with status := stat } : Reminder).id then
            { r with status := stat, updatedAt := now } else x)) =
        (fun x : Reminder => x.id == id) := by
      funext x
      by_cases hx : (x.id == ({ r with status := stat } : Reminder).id) = true
      · simp only [Function.comp, hx, if_pos]
        simp only at hx ⊢
        rw [hid2]
        have hxe : x.id = r.id := by simpa using hx
        rw [hxe, hid2]
      · simp only [Function.comp]
        rw [if_neg]
        exact fun hc => hx (by rw [hc])
    rw [hpf, hget] at h2
    have h4 : some (if r.id == ({ r with status := stat } : Reminder).id then
        ({ r with status := stat, updatedAt := now } : Reminder) else r) =
        some r2 := h2
    have h5 := Option.some.inj h4
    rw [if_pos (by simp)] at h5
    exact h5.symm
  · exact Except.noConfusion hupd

/-- C3 (amended): `Complete` and `Cancel` are unguarded read-modify-write
operations: whenever they succeed they set the stored status to Completed
resp. Cancelled regardless of the current status, so transitions out of
Completed and Cancelled are possible (see `c3_counterexample`, where a
Completed reminder becomes Cancelled). -/
theorem c3_unguarded_transitions (id : String) (st st2 : Store) (now : DateTime) :
    (ReminderService.Complete id st now = (st2, none) →
      ∀ r2, getReminder st2 id = some r2 → r2.status = StatusCompleted) ∧
    (ReminderService.Cancel id st now = (st2, none) →
      ∀ r2, getReminder st2 id = some r2 → r2.status = StatusCancelled) := by
  constructor
  · intro hc r2 h2
    unfold ReminderService.Complete at hc
    split at hc
    · simp at hc
    · rename_i r hget
      split at hc
      · rename_i st3 hupd
        simp only [Prod.mk.injEq] at hc
        rw [← hc.1] at h2
        rw [update_sets_status id st st3 now r StatusCompleted hget hupd r2 h2]
      · simp at hc
  · intro hc r2 h2
    unfold ReminderService.Cancel at hc
    split at hc
    · simp at hc
    · rename_i r hget
      split at hc
      · rename_i st3 hupd
        simp only [Prod.mk.injEq] at hc
        rw [← hc.1] at h2
        rw [update_sets_status id st st3 now r StatusCancelled hget hupd r2 h2]
      · simp at hc

/-- A concrete reminder record for the scenarios below. -/
def mkReminder (id stat pattern : String) : Reminder :=
  { id := id, userID := "7", title := "t", description := "",
    dueTime := mkDT 2024 5 1 9 0, recurrencePattern := pattern,
    priority := false, status := stat, createdAt := mkDT 2024 4 1 9 0,
    updatedAt := mkDT 2024 4 1 9 0 }

/-- A store holding a single reminder. -/
def oneStore (r : Reminder) : Store :=
  { reminders := [r], logs := [], nextId := 1 }

/-- The empty store. -/
def emptyStore : Store := { reminders := [], logs := [], nextId := 0 }

/-- C3 counterexample: a reminder stored as Completed is moved to
Cancelled by `Cancel`, so a terminal status is not preserved and the
claimed one-way transition discipline does not hold in the service. -/
theorem c3_counterexample :
    (getReminder (oneStore (mkReminder "r1" StatusCompleted "")) "r1").map
        (fun r => r.status) = some StatusCompleted ∧
    (ReminderService.Cancel "r1" (oneStore (mkReminder "r1" StatusCompleted ""))
        (mkDT 2024 5 2 9 0)).2 = none ∧
    (getReminder (ReminderService.Cancel "r1"
        (oneStore (mkReminder "r1" StatusCompleted "")) (mkDT 2024 5 2 9 0)).1
        "r1").map (fun r => r.status) = some StatusCancelled := by
  refine ⟨by decide, by decide, by decide⟩

/-- C3 witness: completing a Pending reminder leaves it stored as
Completed. -/
theorem c3_witness :
    ReminderService.Complete "r1" (oneStore (mkReminder "r1" StatusPending ""))
        (mkDT 2024 5 2 9 0) =
      ((ReminderService.Complete "r1" (oneStore (mkReminder "r1" StatusPending ""))
        (mkDT 2024 5 2 9 0)).1, none) ∧
    (getReminder (ReminderService.Complete "r1"
        (oneStore (mkReminder "r1" StatusPending "")) (mkDT 2024 5 2 9 0)).1
        "r1").map (fun r => r.status) = some StatusCompleted := by
  have h1 : ReminderService.Complete "r1"
      (oneStore (mkReminder "r1" StatusPending "")) (mkDT 2024 5 2 9 0) =
      ((ReminderService.Complete "r1" (oneStore (mkReminder "r1" StatusPending ""))
        (mkDT 2024 5 2 9 0)).1, none) := by decide
  refine ⟨h1, ?_⟩
  have h2 := (c3_unguarded_transitions "r1" (oneStore (mkReminder "r1" StatusPending ""))
    (ReminderService.Complete "r1" (oneStore (mkReminder "r1" StatusPending ""))
      (mkDT 2024 5 2 9 0)).1 (mkDT 2024 5 2 9 0)).1 h1
  cases hg : getReminder (ReminderService.Complete "r1"
      (oneStore (mkReminder "r1" StatusPending "")) (mkDT 2024 5 2 9 0)).1 "r1" with
  | none => exact absurd hg (by decide)
  | some r2 => simp [h2 r2 hg]

/-- The three validation-error results of `Create` and `Update`. -/
def isValidationErr (e : Option String) : Prop :=
  e = some "reminder title is required" ∨
  e = some "reminder due time is required" ∨
  e = some "reminder due time must be in the future"

/-- The not-found error of the store update is not a validation error:
the two message families differ at character 9. -/
theorem notFound_not_validation (s : String) :
    ¬ isValidationErr (some ("reminder not found: " ++ s)) := by
  intro h
  have hd : ∀ msg : String, ("reminder not found: " ++ s) = msg →
      ("reminder not found: ".data ++ s.data)[9]? = msg.data[9]? := by
    intro msg hm
    rw [← String.data_append, hm]
  rcases h with h | h | h <;>
    · simp only [Option.some.injEq] at h
      have h9 := hd _ h
      rw [List.getElem?_append] at h9
      rw [if_pos (by decide)] at h9
      exact absurd h9 (by decide)

/-- C4 (amended): `Create` and `Update` produce a validation error if and
only if the title is empty, the due time is the zero value, or the due
time is strictly before the current time — and on any error the store is
untouched.  A due time exactly equal to `now` passes the `Before` check
and is accepted (see `c4_counterexample`), contrary to the original
claim. -/
theorem c4_validation (r : Reminder) (st : Store) (now : DateTime) :
    (isValidationErr (ReminderService.Create r st now).2 ↔
      (r.title = "" ∨ r.dueTime = dtZero ∨ before r.dueTime now)) ∧
    ((ReminderService.Create r st now).2.isSome ↔
      isValidationErr (ReminderService.Create r st now).2) ∧
    ((ReminderService.Create r st now).2.isSome →
      (ReminderService.Create r st now).1 = st) ∧
    (isValidationErr (ReminderService.Update r st now).2 ↔
      (r.title = "" ∨ r.dueTime = dtZero ∨ before r.dueTime now)) ∧
    ((ReminderService.Update r st now).2.isSome →
      (ReminderService.Update r st now).1 = st) := by
  unfold ReminderService.Create ReminderService.Update
  by_cases h1 : r.title = ""
  · simp [h1, isValidationErr]
  · by_cases h2 : r.dueTime = dtZero
    · simp [h1, h2, isValidationErr]
    · by_cases h3 : before r.dueTime now
      · simp [h1, h2, h3, isValidationErr]
      · simp only [h1, h2, h3, if_neg, if_false]
        refine ⟨by simp [isValidationErr], by simp [isValidationErr], by simp, ?_, ?_⟩
        · cases hu : updateReminder st r now with
          | ok st2 => simp [isValidationErr]
          | error e =>
            unfold updateReminder at hu
            split at hu
            · exact Except.noConfusion hu
            · have he : e = "reminder not found: " ++ r.id :=
                (Except.error.inj hu).symm
              subst he
              simp only []
              constructor
              · intro hv
                exact absurd hv (notFound_not_validation r.id)
              · intro hc
                rcases hc with hc | hc | hc <;> simp_all
        · cases hu : updateReminder st r now with
          | ok st2 => simp
          | error e => simp

/-- C4 witness: an empty title is rejected with the validation error and
the store is unchanged. -/
theorem c4_witness :
    isValidationErr (ReminderService.Create
      { mkReminder "x" StatusPending "" with title := "" } emptyStore
      (mkDT 2024 4 30 9 0)).2 ∧
    (ReminderService.Create { mkReminder "x" StatusPending "" with title := "" }
      emptyStore (mkDT 2024 4 30 9 0)).1 = emptyStore := by
  have h := c4_validation { mkReminder "x" StatusPending "" with title := "" }
    emptyStore (mkDT 2024 4 30 9 0)
  exact ⟨h.1.mpr (Or.inl rfl), h.2.2.1 (by decide)⟩

/-- C4 counterexample: a reminder whose due time equals `now` exactly is
accepted by `Create` (the `Before` check is strict), although the claim
requires it to be rejected. -/
theorem c4_counterexample :
    (ReminderService.Create (mkReminder "" StatusPending "") emptyStore
        (mkDT 2024 5 1 9 0)).2 = none ∧
    (mkReminder "" StatusPending "").dueTime = mkDT 2024 5 1 9 0 ∧
    ¬ before (mkReminder "" StatusPending "").dueTime (mkDT 2024 5 1 9 0) := by
  refine ⟨by decide, by decide, by decide⟩

/-- C5 (amended): when the recurrence computation fails during
re-enrollment, `scheduleNextRecurrence` aborts before touching the store:
the current occurrence keeps its Pending status (it is *not* marked
Completed, contrary to the original claim) and no successor is created. -/
theorem c5_failed_recurrence (r : Reminder) (st : Store) (now : DateTime)
    (e : String)
    (h : calculateNextOccurrence r.recurrencePattern r.dueTime now = .error e) :
    scheduleNextRecurrence r st now = (st, some e) := by
  unfold scheduleNextRecurrence
  rw [h]

/-- C5 witness: an unsupported pattern aborts re-enrollment with the store
untouched. -/
theorem c5_witness :
    calculateNextOccurrence
        (mkReminder "r5" StatusPending "yearly:1").recurrencePattern
        (mkReminder "r5" StatusPending "yearly:1").dueTime (mkDT 2024 5 2 9 0) =
      .error "unsupported recurrence pattern: yearly:1" ∧
    scheduleNextRecurrence (mkReminder "r5" StatusPending "yearly:1")
        (oneStore (mkReminder "r5" StatusPending "yearly:1")) (mkDT 2024 5 2 9 0) =
      (oneStore (mkReminder "r5" StatusPending "yearly:1"),
        some "unsupported recurrence pattern: yearly:1") := by
  have h1 : calculateNextOccurrence
      (mkReminder "r5" StatusPending "yearly:1").recurrencePattern
      (mkReminder "r5" StatusPending "yearly:1").dueTime (mkDT 2024 5 2 9 0) =
      .error "unsupported recurrence pattern: yearly:1" := rfl
  exact ⟨h1, c5_failed_recurrence _ _ _ _ h1⟩

/-- C5 counterexample: after a failed next-occurrence computation the
stored reminder is still Pending — not Completed as the claim says — and
the store still holds exactly one reminder (no successor). -/
theorem c5_counterexample :
    (getReminder (scheduleNextRecurrence (mkReminder "r5" StatusPending "yearly:1")
        (oneStore (mkReminder "r5" StatusPending "yearly:1"))
        (mkDT 2024 5 2 9 0)).1 "r5").map (fun r => r.status) =
      some StatusPending ∧
    StatusPending ≠ StatusCompleted ∧
    (scheduleNextRecurrence (mkReminder "r5" StatusPending "yearly:1")
        (oneStore (mkReminder "r5" StatusPending "yearly:1"))
        (mkDT 2024 5 2 9 0)).1.reminders.length = 1 := by
  refine ⟨by decide, by decide, by decide⟩

/-- C6 (amended): with a parsable user id, a successful primary send
appends exactly one `telegram_message` log entry with status "success";
a failed send writes *no* log entry (the source returns before logging)
and leaves the store — and hence the Pending status — unchanged, so the
reminder is re-evaluated on the next tick. -/
theorem c6_notification_logging (r : Reminder) (st : Store) (now : DateTime)
    (hu : (parseUserID r.userID).isSome = true) :
    ((sendNotification r st now true).1.logs = st.logs ++
      [{ id := toString st.nextId, reminderID := r.id,
         notificationType := NotificationTelegramMessage, status := "success",
         errorMessage := "", attemptedAt := now }] ∧
      (sendNotification r st now true).2 = none) ∧
    (sendNotification r st now false = (st, some "failed to send message")) ∧
    (checkRemindersStep r st now false = st) := by
  cases hpu : parseUserID r.userID with
  | none => rw [hpu] at hu; exact absurd hu (by simp)
  | some v =>
    have hsT : sendNotification r st now true =
        (ReminderService.LogNotification
          { id := "", reminderID := r.id,
            notificationType := NotificationTelegramMessage,
            status := "success", errorMessage := "", attemptedAt := now } st now,
         none) := by
      unfold sendNotification
      rw [hpu]
      rfl
    have hsF : sendNotification r st now false =
        (st, some "failed to send message") := by
      unfold sendNotification
      rw [hpu]
      rfl
    refine ⟨?_, hsF, ?_⟩
    · rw [hsT]
      unfold ReminderService.LogNotification createNotificationLog
      constructor
      · simp only []
        by_cases hz : now = dtZero <;> simp [hz]
      · rfl
    · unfold checkRemindersStep
      split
      · rfl
      · rw [hsF]

/-- C6 witness: a successful send appends one log entry; a failed one is
reported and leaves the store unchanged. -/
theorem c6_witness :
    (parseUserID (mkReminder "r6" StatusPending "").userID).isSome = true ∧
    (sendNotification (mkReminder "r6" StatusPending "") emptyStore
      (mkDT 2024 5 2 9 0) true).1.logs.length = 1 ∧
    sendNotification (mkReminder "r6" StatusPending "") emptyStore
      (mkDT 2024 5 2 9 0) false = (emptyStore, some "failed to send message") := by
  have h := c6_notification_logging (mkReminder "r6" StatusPending "") emptyStore
    (mkDT 2024 5 2 9 0) (by decide)
  refine ⟨by decide, ?_, h.2.1⟩
  rw [h.1.1]
  decide

/-- C6 counterexample: the failed primary send attempt produces *no*
notification log entry at all, not the one-entry-with-failure-outcome the
claim requires. -/
theorem c6_counterexample :
    (sendNotification (mkReminder "r6" StatusPending "") emptyStore
        (mkDT 2024 5 2 9 0) false).1.logs.length = 0 ∧
    (sendNotification (mkReminder "r6" StatusPending "") emptyStore
        (mkDT 2024 5 2 9 0) false).2.isSome = true := by
  refine ⟨by decide, by decide⟩

/-- C8 (amended): the deferred escalation attempts a send exactly when the
re-fetch finds the reminder still Pending; when the status has left
Pending (or the fetch fails) it does nothing at all; and the
`telegram_call` log entry is written only when the escalation transport
send itself succeeds — a failed escalation send leaves the store
unchanged, with nothing logged, even though the reminder was Pending
(see `c8_counterexample`). -/
theorem c8_escalation (st : Store) (id : String) (now : DateTime) (sendOk : Bool) :
    (((ReminderService.Get st id).map (fun r => r.status) ≠ some StatusPending) →
      escalationFire st id now sendOk = (false, st)) ∧
    (((ReminderService.Get st id).map (fun r => r.status) = some StatusPending) →
      (escalationFire st id now sendOk).1 = true ∧
      (sendOk = false → (escalationFire st id now sendOk).2 = st) ∧
      (sendOk = true → (escalationFire st id now sendOk).2.logs = st.logs ++
        [{ id := toString st.nextId, reminderID := id,
           notificationType := NotificationTelegramCall, status := "success",
           errorMessage := "", attemptedAt := now }])) := by
  cases hg : ReminderService.Get st id with
  | none =>
    have hred : escalationFire st id now sendOk = (false, st) := by
      unfold escalationFire
      rw [hg]
    refine ⟨fun _ => hred, fun hc => ?_⟩
    exact Option.noConfusion
      (show (none : Option String) = some StatusPending from hc)
  | some rem =>
    have hred : escalationFire st id now sendOk =
        (if rem.status ≠ StatusPending then (false, st)
         else if sendOk = false then (true, st)
         else (true, ReminderService.LogNotification
           { id := "", reminderID := id,
             notificationType := NotificationTelegramCall, status := "success",
             errorMessage := "", attemptedAt := now } st now)) := by
      unfold escalationFire
      rw [hg]
    by_cases hstat : rem.status = StatusPending
    · rw [hred, if_neg (show ¬(rem.status ≠ StatusPending) from by simp [hstat])]
      refine ⟨fun hc => ?_, fun _ => ?_⟩
      · have hc2 : some rem.status = some StatusPending := by rw [hstat]
        exact absurd hc2 hc
      · cases sendOk with
        | false =>
          refine ⟨rfl, fun _ => rfl, fun hc => ?_⟩
          exact Bool.noConfusion hc
        | true =>
          refine ⟨rfl, fun hc => Bool.noConfusion hc, fun _ => ?_⟩
          unfold ReminderService.LogNotification createNotificationLog
          simp only []
          by_cases hz : now = dtZero <;> simp [hz]
    · rw [hred, if_pos (show rem.status ≠ StatusPending from hstat)]
      refine ⟨fun _ => rfl, fun hc => ?_⟩
      have hc2 : some rem.status = some StatusPending := hc
      exact absurd (Option.some.inj hc2) hstat

/-- C8 witness: an escalation firing against a reminder already Completed
is a no-op with zero escalation sends. -/
theorem c8_witness :
    (ReminderService.Get (oneStore (mkReminder "r8" StatusCompleted "")) "r8").map
      (fun r => r.status) ≠ some StatusPending ∧
    escalationFire (oneStore (mkReminder "r8" StatusCompleted "")) "r8"
      (mkDT 2024 5 2 9 0) true =
      (false, oneStore (mkReminder "r8" StatusCompleted "")) := by
  have h := c8_escalation (oneStore (mkReminder "r8" StatusCompleted "")) "r8"
    (mkDT 2024 5 2 9 0) true
  exact ⟨by decide, h.1 (by decide)⟩

/-- C8 counterexample: the reminder is fetched still Pending, the
escalation send is attempted but its transport fails, and *no* log entry
is written — refuting the claim that an escalation is sent-and-logged
exactly when the status is still Pending. -/
theorem c8_counterexample :
    (ReminderService.Get (oneStore (mkReminder "r8" StatusPending "")) "r8").map
      (fun r => r.status) = some StatusPending ∧
    (escalationFire (oneStore (mkReminder "r8" StatusPending "")) "r8"
      (mkDT 2024 5 2 9 0) false).1 = true ∧
    (escalationFire (oneStore (mkReminder "r8" StatusPending "")) "r8"
      (mkDT 2024 5 2 9 0) false).2.logs.length = 0 := by
  refine ⟨by decide, by decide, by decide⟩

/-- C9 (amended): `ParseCommand` strips the trailing "-call" marker,
setting the priority flag exactly when the input ends with it, then splits
at the first occurrence of " to " — and only when " to " occurs nowhere,
at the first occurrence of " that " — trimming both parts; assuming the
time-expression resolver never produces the format error itself, the
format error is returned if and only if neither separator occurs.  (The
original claim would split at the earliest occurrence of either phrase;
the code gives " to " precedence regardless of position, see
`c9_counterexample`.) -/
theorem c9_parseCommand (pte : String → Except String DateTime) (input : String)
    (hp : ∀ s, pte s ≠ .error formatErrMsg) :
    (ParseCommand pte input = .error formatErrMsg ↔
      (goSplitFirst " to " (stripCall input).1 = none ∧
       goSplitFirst " that " (stripCall input).1 = none)) ∧
    ((stripCall input).2 = goHasSuffix input "-call") ∧
    (∀ l r, goSplitFirst " to " (stripCall input).1 = some (l, r) →
      ParseCommand pte input =
        (pte (goTrimSpace l)).map
          (fun t => (t, goTrimSpace r, (stripCall input).2))) ∧
    (goSplitFirst " to " (stripCall input).1 = none →
      ∀ l r, goSplitFirst " that " (stripCall input).1 = some (l, r) →
      ParseCommand pte input =
        (pte (goTrimSpace l)).map
          (fun t => (t, goTrimSpace r, (stripCall input).2))) := by
  have hmark : (stripCall input).2 = goHasSuffix input "-call" := by
    unfold stripCall
    split
    · rename_i hy
      simp [hy]
    · rename_i hn
      simp only []
      cases hb : goHasSuffix input "-call" with
      | false => rfl
      | true => exact absurd hb hn
  cases h1 : goSplitFirst " to " (stripCall input).1 with
  | some p =>
    obtain ⟨l, r⟩ := p
    have hPC : ParseCommand pte input =
        (pte (goTrimSpace l)).map
          (fun t => (t, goTrimSpace r, (stripCall input).2)) := by
      unfold ParseCommand
      rw [h1]
      show (match pte (goTrimSpace l) with
        | .error e => Except.error e
        | .ok t => Except.ok (t, goTrimSpace r, (stripCall input).2)) = _
      cases hpte : pte (goTrimSpace l) <;> rfl
    refine ⟨?_, hmark, ?_, ?_⟩
    · rw [hPC]
      constructor
      · intro he
        cases hpte : pte (goTrimSpace l) with
        | error e =>
          rw [hpte] at he
          have he2 : e = formatErrMsg := by
            have : Except.error (ε := String) (α := DateTime × String × Bool)
                e = .error formatErrMsg := he
            exact Except.error.inj this
          exact absurd (by rw [hpte, he2]) (hp (goTrimSpace l))
        | ok t =>
          rw [hpte] at he
          exact Except.noConfusion he
      · intro hc
        exact Option.noConfusion hc.1
    · intro l2 r2 h2
      have hlr : l2 = l ∧ r2 = r := by
        simp only [Option.some.injEq, Prod.mk.injEq] at h2
        exact ⟨h2.1.symm, h2.2.symm⟩
      rw [hlr.1, hlr.2]
      exact hPC
    · intro hnone
      exact Option.noConfusion hnone
  | none =>
    cases h3 : goSplitFirst " that " (stripCall input).1 with
    | some p =>
      obtain ⟨l, r⟩ := p
      have hPC : ParseCommand pte input =
          (pte (goTrimSpace l)).map
            (fun t => (t, goTrimSpace r, (stripCall input).2)) := by
        unfold ParseCommand
        rw [h1, h3]
        show (match pte (goTrimSpace l) with
          | .error e => Except.error e
          | .ok t => Except.ok (t, goTrimSpace r, (stripCall input).2)) = _
        cases hpte : pte (goTrimSpace l) <;> rfl
      refine ⟨?_, hmark, ?_, ?_⟩
      · rw [hPC]
        constructor
        · intro he
          cases hpte : pte (goTrimSpace l) with
          | error e =>
            rw [hpte] at he
            have he2 : e = formatErrMsg := by
              have : Except.error (ε := String) (α := DateTime × String × Bool)
                  e = .error formatErrMsg := he
              exact Except.error.inj this
            exact absurd (by rw [hpte, he2]) (hp (goTrimSpace l))
          | ok t =>
            rw [hpte] at he
            exact Except.noConfusion he
        · intro hc
          exact Option.noConfusion hc.2
      · intro l2 r2 h2
        exact Option.noConfusion h2
      · intro _ l2 r2 h2
        have hlr : l2 = l ∧ r2 = r := by
          simp only [Option.some.injEq, Prod.mk.injEq] at h2
          exact ⟨h2.1.symm, h2.2.symm⟩
        rw [hlr.1, hlr.2]
        exact hPC
    | none =>
      have hPC : ParseCommand pte input = .error formatErrMsg := by
        unfold ParseCommand
        rw [h1, h3]
      refine ⟨?_, hmark, ?_, ?_⟩
      · rw [hPC]
        exact ⟨fun _ => ⟨rfl, rfl⟩, fun _ => rfl⟩
      · intro l2 r2 h2
        exact Option.noConfusion h2
      · intro _ l2 r2 h2
        exact Option.noConfusion h2

instance {e a : Type} [DecidableEq e] [DecidableEq a] : DecidableEq (Except e a) :=
  fun x y =>
  match x, y with
  | .ok u, .ok v =>
    if h : u = v then isTrue (by rw [h])
    else isFalse (fun hc => h (Except.ok.inj hc))
  | .error u, .error v =>
    if h : u = v then isTrue (by rw [h])
    else isFalse (fun hc => h (Except.error.inj hc))
  | .ok _, .error _ => isFalse (fun hc => Except.noConfusion hc)
  | .error _, .ok _ => isFalse (fun hc => Except.noConfusion hc)

/-- C9 witness: a command with marker and " to " separator resolves with
the trimmed parts and the priority flag set. -/
theorem c9_witness :
    (∀ s, (fun _ : String => (Except.ok dtZero : Except String DateTime)) s ≠
      .error formatErrMsg) ∧
    ParseCommand (fun _ => .ok dtZero) "5pm to nap -call" =
      .ok (dtZero, "nap", true) := by
  have hp : ∀ s, (fun _ : String => (Except.ok dtZero : Except String DateTime)) s ≠
      .error formatErrMsg := fun s hx => Except.noConfusion hx
  have h := c9_parseCommand (fun _ => .ok dtZero) "5pm to nap -call" hp
  refine ⟨hp, ?_⟩
  rw [h.2.2.1 "5pm" "nap " (by decide)]
  decide

/-- C9 counterexample: in "5pm that rest to sleep" the earliest separator
phrase occurrence is " that " (the claimed split point), but the code
splits at the later " to ": the time part handed to the resolver is
"5pm that rest", not "5pm". -/
theorem c9_counterexample :
    earliestSepSplit "5pm that rest to sleep" = some ("5pm", "rest to sleep") ∧
    ParseCommand (fun s => .error (String.append "TIME:" s))
        "5pm that rest to sleep" = .error "TIME:5pm that rest" ∧
    "5pm that rest" ≠ "5pm" := by
  refine ⟨by decide, ?_, by decide⟩
  have h1 : goSplitFirst " to " (stripCall "5pm that rest to sleep").1 =
      some ("5pm that rest", "sleep") := by decide
  unfold ParseCommand
  rw [h1]
  decide
